import Mathlib

/-!
Verification of the `deletetsm` segment-rewrite tool (package `deletetsm`,
file `cmd/influx_inspect/deletetsm/deletetsm.go`).

The development shallowly embeds the tool: the pure series-key formatting,
the block-rewrite loop of `processTSMFile`, the filesystem-affecting steps of
`processTSMFile` (temp-file creation, block writes, index finalization, rename)
with explicit failure injection, the directory walk `walkTSMFiles`, the filter
load `parseSeriesFile`, and the drivers `deleteFromTSMFiles`, `deleteSeries`
and `Run`.  External collaborators that are not part of the repository slice
(the composite-key splitter and the series-key parser of the storage library)
are modelled from the specification and marked as such.
-/

set_option autoImplicit false

namespace DeleteTSM

/-! ### Data model -/

/-- Modelled from the spec: a composite key is "an encoded key combining a
series key and a field name", with the encoding left to the storage library.
We keep the two encoded parts. -/
structure CompositeKey where
  seriesPart : String
  fieldPart : String
deriving DecidableEq, Repr

/-- A storage block: composite key, time range, opaque payload. -/
structure Block where
  key : CompositeKey
  minTime : Int
  maxTime : Int
  payload : List Nat
deriving DecidableEq, Repr

/-- A segment file: an ordered sequence of blocks. -/
structure TSMFile where
  blocks : List Block
deriving DecidableEq, Repr

/-- Modelled from the spec: `tsm1.SeriesAndFieldFromCompositeKey` splits a
composite key back into the series-key bytes and the field name. -/
def SeriesAndFieldFromCompositeKey (k : CompositeKey) : String × String :=
  (k.seriesPart, k.fieldPart)

/-! ### Series-key parsing (modelled collaborator) and `formatSerieKey` -/

/-- Split a character list on a separator character (splitting collaborator
helper; `splitOn` for a single character). -/
def splitChar (sep : Char) : List Char → List (List Char)
  | [] => [[]]
  | c :: cs =>
    if c = sep then [] :: splitChar sep cs
    else
      match splitChar sep cs with
      | [] => [[c]]
      | g :: gs => (c :: g) :: gs

/-- Break a character list at the first occurrence of a separator; the
separator itself is consumed. -/
def breakAtChar (sep : Char) : List Char → List Char × List Char
  | [] => ([], [])
  | c :: cs =>
    if c = sep then ([], cs)
    else
      let p := breakAtChar sep cs
      (c :: p.1, p.2)

/-- Modelled from the spec: `models.ParseKey` — "the series-key parsing
routine that splits a composite key into (measurement, ordered tag set)",
where the series key has the string form
`measurement,tag1=value1,tag2=value2`.  A key without a comma is a bare
measurement with an empty tag set. -/
def ParseKey (s : String) : String × List (String × String) :=
  match splitChar ',' s.data with
  | [] => ("", [])
  | m :: rest =>
    (String.mk m, rest.map fun t =>
      let p := breakAtChar '=' t
      (String.mk p.1, String.mk p.2))

/-- The tag-printing loop of `formatSerieKey`: `key=value` pairs joined by
commas (a comma is written after a tag only when it is not the last one). -/
def formatTags : List (String × String) → String
  | [] => ""
  | [t] => t.1 ++ "=" ++ t.2
  | t :: rest => t.1 ++ "=" ++ t.2 ++ "," ++ formatTags rest

/-- `Command.formatSerieKey`: parse the series bytes into measurement and
tags, print the measurement followed by a comma, then the tags; the error
result is always `nil` in the source (`return b.String(), nil`). -/
def formatSerieKey (seriesBytes : String) : Except String String :=
  let p := ParseKey seriesBytes
  Except.ok (p.1 ++ "," ++ formatTags p.2)

/-- The series key the rewrite derives for a block (always defined because
`formatSerieKey` never fails). -/
def serieKeyOf (b : Block) : String :=
  match formatSerieKey (SeriesAndFieldFromCompositeKey b.key).1 with
  | Except.ok s => s
  | Except.error _ => ""

/-- Whether a block's derived series key is a member of the filter set
(the `cmd.series` map-membership test of `processTSMFile`). -/
def matchesFilter (series : List String) (b : Block) : Bool :=
  decide (serieKeyOf b ∈ series)

example : ParseKey "cpu,host=a" = ("cpu", [("host", "a")]) := by decide
example : ParseKey "cpu" = ("cpu", []) := by decide
example : formatSerieKey "cpu,host=a" = Except.ok "cpu,host=a" := rfl
example : formatSerieKey "cpu" = Except.ok "cpu," := rfl
example : formatSerieKey "mem,host=a,region=b" = Except.ok "mem,host=a,region=b" := rfl

/-! ### The rewrite of one segment file (`processTSMFile`)

Filesystem effects are made explicit: the filesystem is a map from paths to
segment files, and every fallible step of `processTSMFile` (open, reader
construction, temp-file removal, temp-file creation, writer construction,
per-block read, per-block write, index finalization, close, rename) has a
failure switch in a per-file environment, so that every error path of the
source can be exercised. -/

/-- The errors `processTSMFile` can return, one per `return err` site. -/
inductive ProcErr where
  | openFailed
  | readerFailed
  | removeFailed
  | createFailed
  | writerFailed
  | readFailed
  | keyParse (msg : String)
  | writeBlockFailed
  | writeIndexFailed
  | closeFailed
  | renameFailed
deriving DecidableEq, Repr

/-- Failure switches for the fallible steps of one `processTSMFile` call.
`readFailsAt`/`writeBlockFailsAt` name the block index at which the
iterator read / the block write errors. -/
structure FileEnv where
  openFails : Bool
  readerFails : Bool
  removeTmpFails : Bool
  removeIdxFails : Bool
  createFails : Bool
  writerFails : Bool
  readFailsAt : Option Nat
  writeBlockFailsAt : Option Nat
  writeIndexFails : Bool
  closeFails : Bool
  renameFails : Bool
deriving DecidableEq, Repr

/-- The environment in which no operation fails. -/
def noFail : FileEnv :=
  ⟨false, false, false, false, false, false, none, none, false, false, false⟩

/-- Per-path failure environments. -/
def Env : Type := String → FileEnv

/-- The filesystem: paths to segment-file contents (`none` = absent). -/
def FS : Type := String → Option TSMFile

/-- Point update of the filesystem. -/
def FS.update (fs : FS) (p : String) (v : Option TSMFile) : FS :=
  fun q => if q = p then v else fs q

/-- The temporary output path of `processTSMFile`: `path + ".rewriting.tmp"`. -/
def outputPathOf (path : String) : String :=
  path ++ ".rewriting.tmp"

/-- The block loop of `processTSMFile`: walk the input blocks in order; a
block whose derived series key is in the filter set is dropped and counted,
any other block is written.  Returns the error (if any), the blocks written
before stopping, and the dropped-block count. -/
def rewriteLoop (series : List String) (fe : FileEnv) (i : Nat) :
    List Block → Option ProcErr × List Block × Nat
  | [] => (none, [], 0)
  | b :: rest =>
    if fe.readFailsAt = some i then (some ProcErr.readFailed, [], 0)
    else
      match formatSerieKey (SeriesAndFieldFromCompositeKey b.key).1 with
      | Except.error msg => (some (ProcErr.keyParse msg), [], 0)
      | Except.ok serieKey =>
        if serieKey ∈ series then
          let r := rewriteLoop series fe (i + 1) rest
          (r.1, r.2.1, r.2.2 + 1)
        else if fe.writeBlockFailsAt = some i then
          (some ProcErr.writeBlockFailed, [], 0)
        else
          let r := rewriteLoop series fe (i + 1) rest
          (r.1, b :: r.2.1, r.2.2)

/-- `processTSMFile` with explicit filesystem and failure environment.
Returns the error (`none` on success), the filesystem after the call, and
the dropped-block count reported. -/
def processTSMFileE (series : List String) (env : Env) (fs : FS) (path : String) :
    Option ProcErr × FS × Nat :=
  let fe := env path
  match fs path with
  | none => (some ProcErr.openFailed, fs, 0)
  | some file =>
    if fe.openFails then (some ProcErr.openFailed, fs, 0)
    else if fe.readerFails then (some ProcErr.readerFailed, fs, 0)
    else if fe.removeTmpFails then (some ProcErr.removeFailed, fs, 0)
    else
      let fs1 := fs.update (outputPathOf path) none
      if fe.removeIdxFails then (some ProcErr.removeFailed, fs1, 0)
      else
        let fs2 := fs1.update (outputPathOf path ++ ".idx.tmp") none
        if fe.createFails then (some ProcErr.createFailed, fs2, 0)
        else
          let fs3 := fs2.update (outputPathOf path) (some ⟨[]⟩)
          if fe.writerFails then (some ProcErr.writerFailed, fs3, 0)
          else
            let r := rewriteLoop series fe 0 file.blocks
            let fs4 := fs3.update (outputPathOf path) (some ⟨r.2.1⟩)
            match r.1 with
            | some e => (some e, fs4, r.2.2)
            | none =>
              if fe.writeIndexFails then (some ProcErr.writeIndexFailed, fs4, r.2.2)
              else if fe.closeFails then (some ProcErr.closeFailed, fs4, r.2.2)
              else if fe.renameFails then (some ProcErr.renameFailed, fs4, r.2.2)
              else
                (none, (fs4.update (outputPathOf path) none).update path (some ⟨r.2.1⟩),
                  r.2.2)

/-! ### Basic lemmas -/

theorem FS.update_self (fs : FS) (p : String) (v : Option TSMFile) :
    fs.update p v p = v := by
  simp [FS.update]

theorem FS.update_other (fs : FS) (p : String) (v : Option TSMFile) (q : String)
    (h : q ≠ p) : fs.update p v q = fs q := by
  simp [FS.update, h]

theorem self_ne_append (p s : String) (h : s.length ≠ 0) : p ≠ p ++ s := by
  intro he
  have hl := congrArg String.length he
  rw [String.length_append] at hl
  omega

theorem ne_outputPath (path : String) : path ≠ outputPathOf path :=
  self_ne_append path ".rewriting.tmp" (by decide)

theorem ne_idxPath (path : String) : path ≠ outputPathOf path ++ ".idx.tmp" := by
  rw [outputPathOf, String.append_assoc]
  exact self_ne_append path (".rewriting.tmp" ++ ".idx.tmp") (by decide)

theorem noFail_openFails : noFail.openFails = false := rfl

theorem noFail_readerFails : noFail.readerFails = false := rfl

theorem noFail_removeTmpFails : noFail.removeTmpFails = false := rfl

theorem noFail_removeIdxFails : noFail.removeIdxFails = false := rfl

theorem noFail_createFails : noFail.createFails = false := rfl

theorem noFail_writerFails : noFail.writerFails = false := rfl

theorem noFail_readFailsAt : noFail.readFailsAt = none := rfl

theorem noFail_writeBlockFailsAt : noFail.writeBlockFailsAt = none := rfl

theorem noFail_writeIndexFails : noFail.writeIndexFails = false := rfl

theorem noFail_closeFails : noFail.closeFails = false := rfl

theorem noFail_renameFails : noFail.renameFails = false := rfl

theorem formatSerieKey_ok (s : String) :
    formatSerieKey s =
      Except.ok ((ParseKey s).1 ++ "," ++ formatTags (ParseKey s).2) := rfl

theorem serieKeyOf_eq (b : Block) :
    serieKeyOf b =
      (ParseKey (SeriesAndFieldFromCompositeKey b.key).1).1 ++ "," ++
        formatTags (ParseKey (SeriesAndFieldFromCompositeKey b.key).1).2 := rfl

/-- In the failure-free environment the block loop never errors, keeps
exactly the blocks whose derived series key is not in the filter set (in
order), and counts exactly the blocks whose derived series key is in it. -/
theorem rewriteLoop_noFail (series : List String) (i : Nat) (blocks : List Block) :
    rewriteLoop series noFail i blocks =
      (none, blocks.filter (fun b => !matchesFilter series b),
        blocks.countP (matchesFilter series)) := by
  induction blocks generalizing i with
  | nil => simp [rewriteLoop]
  | cons b rest ih =>
    rw [rewriteLoop]
    simp only [noFail_readFailsAt, noFail_writeBlockFailsAt, formatSerieKey_ok]
    by_cases h : serieKeyOf b ∈ series
    · rw [serieKeyOf_eq] at h
      simp [h, ih, List.filter_cons, List.countP_cons, matchesFilter, serieKeyOf_eq]
    · rw [serieKeyOf_eq] at h
      simp [h, ih, List.filter_cons, List.countP_cons, matchesFilter, serieKeyOf_eq]

/-- What a failure-free `processTSMFile` call does: no error, the file at
`path` becomes the filtered block sequence, and the dropped count is the
number of matching blocks. -/
theorem processTSMFileE_noFail_spec (series : List String) (fs : FS) (path : String)
    (file : TSMFile) (h : fs path = some file) :
    (processTSMFileE series (fun _ => noFail) fs path).1 = none ∧
    (processTSMFileE series (fun _ => noFail) fs path).2.1 path =
      some ⟨file.blocks.filter (fun b => !matchesFilter series b)⟩ ∧
    (processTSMFileE series (fun _ => noFail) fs path).2.2 =
      file.blocks.countP (matchesFilter series) := by
  unfold processTSMFileE
  simp only [h, noFail_openFails, noFail_readerFails, noFail_removeTmpFails,
    noFail_removeIdxFails, noFail_createFails, noFail_writerFails,
    noFail_writeIndexFails, noFail_closeFails, noFail_renameFails,
    rewriteLoop_noFail, Bool.false_eq_true, if_false]
  simp [FS.update_self]

/-- On every error outcome of `processTSMFileE` the original file at `path`
is untouched: the rename over `path` happens only on the success path. -/
theorem processTSMFileE_error_fs (series : List String) (env : Env) (fs : FS)
    (path : String) (e : ProcErr)
    (h : (processTSMFileE series env fs path).1 = some e) :
    (processTSMFileE series env fs path).2.1 path = fs path := by
  have h1 : path ≠ outputPathOf path := ne_outputPath path
  have h2 : path ≠ outputPathOf path ++ ".idx.tmp" := ne_idxPath path
  unfold processTSMFileE at h ⊢
  cases hfs : fs path with
  | none => simp [hfs]
  | some file =>
    simp only [hfs] at h ⊢
    by_cases c1 : (env path).openFails = true
    · simp [c1, hfs]
    by_cases c2 : (env path).readerFails = true
    · simp [c1, c2, hfs]
    by_cases c3 : (env path).removeTmpFails = true
    · simp [c1, c2, c3, hfs]
    by_cases c4 : (env path).removeIdxFails = true
    · simp [c1, c2, c3, c4, FS.update, h1, hfs]
    by_cases c5 : (env path).createFails = true
    · simp [c1, c2, c3, c4, c5, FS.update, h1, h2, hfs]
    by_cases c6 : (env path).writerFails = true
    · simp [c1, c2, c3, c4, c5, c6, FS.update, h1, h2, hfs]
    rcases hr : (rewriteLoop series (env path) 0 file.blocks).1 with _ | e2
    · rw [hr] at h
      try rw [hr]
      by_cases c7 : (env path).writeIndexFails = true
      · simp [c1, c2, c3, c4, c5, c6, c7, FS.update, h1, h2, hfs]
      by_cases c8 : (env path).closeFails = true
      · simp [c1, c2, c3, c4, c5, c6, c7, c8, FS.update, h1, h2, hfs]
      by_cases c9 : (env path).renameFails = true
      · simp [c1, c2, c3, c4, c5, c6, c7, c8, c9, FS.update, h1, h2, hfs]
      simp [c1, c2, c3, c4, c5, c6, c7, c8, c9] at h
    · rw [hr] at h
      try rw [hr]
      simp [c1, c2, c3, c4, c5, c6, FS.update, h1, h2, hfs]

/-- Filtering out the matching blocks leaves no matching block behind. -/
theorem countP_filter_not_matches (series : List String) (l : List Block) :
    (l.filter fun b => !matchesFilter series b).countP (matchesFilter series) = 0 := by
  induction l with
  | nil => simp
  | cons b t ih =>
    by_cases h : matchesFilter series b <;>
      simp [List.filter_cons, h, List.countP_cons, ih]

/-- Filtering out the matching blocks is idempotent on the block list. -/
theorem filter_not_matches_idem (series : List String) (l : List Block) :
    ((l.filter fun b => !matchesFilter series b).filter fun b => !matchesFilter series b) =
      l.filter fun b => !matchesFilter series b := by
  induction l with
  | nil => simp
  | cons b t ih =>
    by_cases h : matchesFilter series b <;> simp [List.filter_cons, h, ih]

/-- The block loop never reports a key-parse error, whatever the input:
`formatSerieKey` always succeeds. -/
theorem rewriteLoop_ne_keyParse (series : List String) (fe : FileEnv) (i : Nat)
    (blocks : List Block) (msg : String) :
    (rewriteLoop series fe i blocks).1 ≠ some (ProcErr.keyParse msg) := by
  induction blocks generalizing i with
  | nil => simp [rewriteLoop]
  | cons b rest ih =>
    rw [rewriteLoop]
    simp only [formatSerieKey_ok]
    by_cases hr : fe.readFailsAt = some i
    · simp [hr]
    by_cases hm :
        (ParseKey (SeriesAndFieldFromCompositeKey b.key).1).1 ++ "," ++
          formatTags (ParseKey (SeriesAndFieldFromCompositeKey b.key).1).2 ∈ series
    · simp [hr, hm, ih]
    by_cases hw : fe.writeBlockFailsAt = some i
    · simp [hr, hm, hw]
    simp [hr, hm, hw, ih]

/-- `processTSMFile` never returns a key-parse error, whatever the segment
content: the key-parse error branch of the source is dead code. -/
theorem processTSMFileE_ne_keyParse (series : List String) (env : Env) (fs : FS)
    (path : String) (msg : String) :
    (processTSMFileE series env fs path).1 ≠ some (ProcErr.keyParse msg) := by
  unfold processTSMFileE
  cases hfs : fs path with
  | none => simp
  | some file =>
    have hl := rewriteLoop_ne_keyParse series (env path) 0 file.blocks msg
    simp only
    by_cases c1 : (env path).openFails = true
    · simp [c1]
    by_cases c2 : (env path).readerFails = true
    · simp [c1, c2]
    by_cases c3 : (env path).removeTmpFails = true
    · simp [c1, c2, c3]
    by_cases c4 : (env path).removeIdxFails = true
    · simp [c1, c2, c3, c4]
    by_cases c5 : (env path).createFails = true
    · simp [c1, c2, c3, c4, c5]
    by_cases c6 : (env path).writerFails = true
    · simp [c1, c2, c3, c4, c5, c6]
    rcases hr : (rewriteLoop series (env path) 0 file.blocks).1 with _ | e2
    · rw [hr] at hl
      try rw [hr]
      by_cases c7 : (env path).writeIndexFails = true
      · simp [c1, c2, c3, c4, c5, c6, c7]
      by_cases c8 : (env path).closeFails = true
      · simp [c1, c2, c3, c4, c5, c6, c7, c8]
      by_cases c9 : (env path).renameFails = true
      · simp [c1, c2, c3, c4, c5, c6, c7, c8, c9]
      simp [c1, c2, c3, c4, c5, c6, c7, c8, c9]
    · rw [hr] at hl
      try rw [hr]
      simp only [c1, c2, c3, c4, c5, c6, Bool.false_eq_true, if_false]
      intro hc
      exact hl hc

/-! ### Concrete fixtures for witnesses and counterexamples -/

/-- A sample segment path inside `db/rp`. -/
def pathW : String := "db/rp/000001.tsm"

/-- Block of series `cpu,host=a`, field `value`. -/
def bCpuA : Block := ⟨⟨"cpu,host=a", "value"⟩, 0, 10, [1]⟩

/-- Block of series `cpu,host=b`, field `value`. -/
def bCpuB : Block := ⟨⟨"cpu,host=b", "value"⟩, 0, 10, [2]⟩

/-- A two-block sample segment. -/
def fileW : TSMFile := ⟨[bCpuA, bCpuB]⟩

/-- A filesystem holding only the sample segment. -/
def fsW : FS := fun p => if p = pathW then some fileW else none

/-- A filter set naming the series of `bCpuA`. -/
def seriesW : List String := ["cpu,host=a"]

/-- An environment in which finalizing the index fails for every file. -/
def envFailIdx : Env :=
  fun _ => ⟨false, false, false, false, false, false, none, none, true, false, false⟩

/-! ### Claim C1 -/

/-- **C1.** For every segment file and filter set, the failure-free rewrite
succeeds, the rewritten segment's block sequence is exactly the subsequence
(in original order) of the input blocks whose derived series key is not in
the filter set, and the reported dropped-block count is the number of blocks
whose derived series key is in the filter set — so no block is duplicated or
lost. -/
theorem processTSMFile_rewrites_exactly_nonmatching (series : List String) (fs : FS)
    (path : String) (file : TSMFile) (h : fs path = some file) :
    (processTSMFileE series (fun _ => noFail) fs path).1 = none ∧
    (processTSMFileE series (fun _ => noFail) fs path).2.1 path =
      some ⟨file.blocks.filter fun b => !matchesFilter series b⟩ ∧
    (processTSMFileE series (fun _ => noFail) fs path).2.2 =
      file.blocks.countP (matchesFilter series) :=
  processTSMFileE_noFail_spec series fs path file h

/-- Witness for C1 on a concrete two-block segment and one-key filter. -/
theorem processTSMFile_rewrites_exactly_nonmatching_witness :
    fsW pathW = some fileW ∧
    ((processTSMFileE seriesW (fun _ => noFail) fsW pathW).1 = none ∧
     (processTSMFileE seriesW (fun _ => noFail) fsW pathW).2.1 pathW =
       some ⟨fileW.blocks.filter fun b => !matchesFilter seriesW b⟩ ∧
     (processTSMFileE seriesW (fun _ => noFail) fsW pathW).2.2 =
       fileW.blocks.countP (matchesFilter seriesW)) :=
  ⟨by decide, processTSMFile_rewrites_exactly_nonmatching seriesW fsW pathW fileW
    (by decide)⟩

/-! ### Claim C2 -/

/-- **C2.** If any step of the rewrite fails — opening or reading the input,
removing or creating the temporary file, writing a block, finalizing the
index, closing, or even the rename itself — then `processTSMFile` returns an
error and the content at the original path is unchanged: the rename over the
original happens only after every prior step has succeeded. -/
theorem processTSMFile_error_leaves_original (series : List String) (env : Env)
    (fs : FS) (path : String) (e : ProcErr)
    (h : (processTSMFileE series env fs path).1 = some e) :
    (processTSMFileE series env fs path).2.1 path = fs path :=
  processTSMFileE_error_fs series env fs path e h

/-- Witness for C2: index finalization fails on the sample segment, an error
is returned, and the original file is untouched. -/
theorem processTSMFile_error_leaves_original_witness :
    (processTSMFileE seriesW envFailIdx fsW pathW).1 = some ProcErr.writeIndexFailed ∧
    (processTSMFileE seriesW envFailIdx fsW pathW).2.1 pathW = fsW pathW :=
  ⟨by decide,
   processTSMFile_error_leaves_original seriesW envFailIdx fsW pathW
     ProcErr.writeIndexFailed (by decide)⟩

/-! ### Claim C4 -/

/-- **C4.** Rewriting is idempotent: rewriting the already-rewritten segment
with the same filter set drops zero blocks and leaves the block sequence at
the path identical. -/
theorem processTSMFile_second_run_noop (series : List String) (fs : FS)
    (path : String) (file : TSMFile) (h : fs path = some file) :
    (processTSMFileE series (fun _ => noFail)
        ((processTSMFileE series (fun _ => noFail) fs path).2.1) path).2.2 = 0 ∧
    (processTSMFileE series (fun _ => noFail)
        ((processTSMFileE series (fun _ => noFail) fs path).2.1) path).2.1 path =
      (processTSMFileE series (fun _ => noFail) fs path).2.1 path := by
  obtain ⟨-, h2, -⟩ := processTSMFileE_noFail_spec series fs path file h
  obtain ⟨-, h2', h3'⟩ := processTSMFileE_noFail_spec series
    ((processTSMFileE series (fun _ => noFail) fs path).2.1) path
    ⟨file.blocks.filter fun b => !matchesFilter series b⟩ h2
  refine ⟨?_, ?_⟩
  · rw [h3']
    exact countP_filter_not_matches series file.blocks
  · rw [h2', h2]
    simp only
    rw [filter_not_matches_idem series file.blocks]

/-- Witness for C4 on the concrete sample segment. -/
theorem processTSMFile_second_run_noop_witness :
    fsW pathW = some fileW ∧
    ((processTSMFileE seriesW (fun _ => noFail)
        ((processTSMFileE seriesW (fun _ => noFail) fsW pathW).2.1) pathW).2.2 = 0 ∧
     (processTSMFileE seriesW (fun _ => noFail)
        ((processTSMFileE seriesW (fun _ => noFail) fsW pathW).2.1) pathW).2.1 pathW =
       (processTSMFileE seriesW (fun _ => noFail) fsW pathW).2.1 pathW) :=
  ⟨by decide, processTSMFile_second_run_noop seriesW fsW pathW fileW (by decide)⟩

/-! ### Claim C7 -/

/-- A block whose composite key is garbage rather than a well-formed
`measurement,tag=value` series key. -/
def bWeird : Block := ⟨⟨",,==,", "f"⟩, 0, 0, []⟩

/-- Path of the segment holding the malformed-key block. -/
def pathX : String := "db/rp/weird.tsm"

/-- A filesystem holding only the malformed-key segment. -/
def fsWeird : FS := fun p => if p = pathX then some ⟨[bWeird]⟩ else none

/-- **C7 counterexample.** On a concrete segment whose only block has a
malformed composite key, `processTSMFile` does not fail with a key-parse
error: it succeeds and silently keeps the block. -/
theorem processTSMFile_malformed_key_silently_kept :
    (processTSMFileE [] (fun _ => noFail) fsWeird pathX).1 = none ∧
    (processTSMFileE [] (fun _ => noFail) fsWeird pathX).2.1 pathX =
      some ⟨[bWeird]⟩ := by
  constructor <;> decide

/-- **C7 amended.** `formatSerieKey` always returns a `nil` error, so
`processTSMFile` can never fail with a key-parse error on any input:
malformed composite keys are silently kept or dropped, never rejected. -/
theorem processTSMFile_never_keyParseError (series : List String) (env : Env)
    (fs : FS) (path : String) (msg : String) :
    formatSerieKey (SeriesAndFieldFromCompositeKey bWeird.key).1 =
      Except.ok ((ParseKey (SeriesAndFieldFromCompositeKey bWeird.key).1).1 ++ "," ++
        formatTags (ParseKey (SeriesAndFieldFromCompositeKey bWeird.key).1).2) ∧
    (processTSMFileE series env fs path).1 ≠ some (ProcErr.keyParse msg) :=
  ⟨formatSerieKey_ok _, processTSMFileE_ne_keyParse series env fs path msg⟩

/-! ### Claim C10 -/

/-- **C10.** A block whose composite key parses to a measurement with an
empty tag set gets the derived series key `measurement ++ ","` (trailing
comma), which differs from the bare measurement name, so a filter set
listing the bare measurement name alone never drops such a block. -/
theorem tagless_series_key_trailing_comma (b : Block) (m : String)
    (h : ParseKey (SeriesAndFieldFromCompositeKey b.key).1 = (m, [])) :
    serieKeyOf b = m ++ "," ∧
    m ++ "," ≠ m ∧
    rewriteLoop [m] noFail 0 [b] = (none, [b], 0) := by
  have hk : serieKeyOf b = m ++ "," := by
    rw [serieKeyOf_eq, h]
    simp [formatTags]
  have hcomma : (("," : String)).length = 1 := rfl
  have hne : m ++ "," ≠ m := by
    intro he
    have hl := congrArg String.length he
    rw [String.length_append] at hl
    omega
  refine ⟨hk, hne, ?_⟩
  rw [rewriteLoop]
  simp only [noFail_readFailsAt, noFail_writeBlockFailsAt, formatSerieKey_ok, h]
  have hmem : ¬ (m ++ "," ++ formatTags ([] : List (String × String)) = m) := by
    intro he
    have hl := congrArg String.length he
    rw [String.length_append, String.length_append] at hl
    have hz : (formatTags ([] : List (String × String))).length = 0 := rfl
    omega
  simp [hmem, rewriteLoop]

/-- A block with the tagless series key `cpu`. -/
def bTagless : Block := ⟨⟨"cpu", "value"⟩, 0, 0, []⟩

/-- Witness for C10 at the tagless key `cpu`: derived key `cpu,`, never
dropped by the filter set `[cpu]`. -/
theorem tagless_series_key_trailing_comma_witness :
    ParseKey (SeriesAndFieldFromCompositeKey bTagless.key).1 = ("cpu", []) ∧
    (serieKeyOf bTagless = "cpu" ++ "," ∧
     "cpu" ++ "," ≠ "cpu" ∧
     rewriteLoop ["cpu"] noFail 0 [bTagless] = (none, [bTagless], 0)) :=
  ⟨by decide, tagless_series_key_trailing_comma bTagless "cpu" (by decide)⟩

/-! ### Locating segment files (`walkTSMFiles`)

The filesystem walk is modelled as a list of visited entries, each giving
its path components relative to the data directory (the walk visits only
paths below the root) together with a flag for an I/O error delivered by the
walk for that entry.  `walkTSMFiles` folds the walk callback of the source
over the entries in visit order, aborting at the first error as
`filepath.Walk` does when the callback returns a non-nil error. -/

/-- The command configuration (the flag-set fields of `Command`). -/
structure Cmd where
  dataDir : String
  database : String
  retentionPolicy : String
  seriesFile : String
  sanitize : Bool
  verbose : Bool
deriving DecidableEq, Repr

/-- One entry delivered by the directory walk: its path components relative
to the data directory, and whether the walk delivers an I/O error for it. -/
structure WalkEntry where
  rel : List String
  err : Bool
deriving DecidableEq, Repr

/-- The absolute path of a walk entry. -/
def WalkEntry.path (dataDir : String) (e : WalkEntry) : String :=
  dataDir ++ "/" ++ String.intercalate "/" e.rel

/-- Modelled from the spec: the segment-file extension constant
`tsm1.TSMFileExtension` of the storage library. -/
def TSMFileExtension : String := "tsm"

/-- `filepath.Ext`: the suffix of the path starting at the final dot of the
final path element; empty if that element has no dot. -/
def fileExt (name : String) : String :=
  let rev := name.data.reverse
  let pre := rev.takeWhile fun c => c != '.' && c != '/'
  match rev.drop pre.length with
  | '.' :: _ => String.mk ('.' :: pre.reverse)
  | _ => ""

example : fileExt "db/rp/000001.tsm" = ".tsm" := by decide
example : fileExt "db/rp/000001" = "" := by decide
example : fileExt "db/rp.tsm/000001" = "" := by decide

/-- Whether the walk callback treats this entry as a segment file
(`filepath.Ext(path) == "." + tsm1.TSMFileExtension`). -/
def isTSMEntry (dataDir : String) (e : WalkEntry) : Bool :=
  fileExt (e.path dataDir) == "." ++ TSMFileExtension

/-- `filepath.Join` for two components (empty components are dropped). -/
def joinPath (a b : String) : String :=
  if a = "" then b else if b = "" then a else a ++ "/" ++ b

/-- The grouping of found segment files: deletion-unit key to the file
paths appended in discovery order (`cmd.tsmFiles`). -/
def TsmMap : Type := List (String × List String)

/-- `m[key] = append(m[key], v)` on the grouping map. -/
def mapAppend (m : TsmMap) (k : String) (v : String) : TsmMap :=
  match m with
  | [] => [(k, [v])]
  | kv :: rest =>
    if kv.1 = k then (kv.1, kv.2 ++ [v]) :: rest
    else kv :: mapAppend rest k v

/-- Lookup on the grouping map (absent keys map to the empty list). -/
def mapFind (m : TsmMap) (k : String) : List String :=
  match m with
  | [] => []
  | kv :: rest => if kv.1 = k then kv.2 else mapFind rest k

/-- Errors of the directory walk. -/
inductive WalkErr where
  | ioErr
  | invalidStructure (path : String)
deriving DecidableEq, Repr

/-- The walk callback of `walkTSMFiles` for one visited entry: propagate a
walk error, skip non-segment files, reject a relative path with fewer than
two components, and record the file under `(database, retentionPolicy)` when
it passes the two optional filters. -/
def walkStep (cmd : Cmd) (m : TsmMap) (e : WalkEntry) : Except WalkErr TsmMap :=
  if e.err then Except.error WalkErr.ioErr
  else if !isTSMEntry cmd.dataDir e then Except.ok m
  else
    let dirs := e.rel
    if dirs.length < 2 then
      Except.error (WalkErr.invalidStructure (e.path cmd.dataDir))
    else if dirs.getD 0 "" = cmd.database ∨ cmd.database = "" then
      if dirs.getD 1 "" = cmd.retentionPolicy ∨ cmd.retentionPolicy = "" then
        Except.ok (mapAppend m (joinPath (dirs.getD 0 "") (dirs.getD 1 ""))
          (e.path cmd.dataDir))
      else Except.ok m
    else Except.ok m

/-- Fold of the walk callback over the visited entries, aborting at the
first error. -/
def walkFold (cmd : Cmd) (m : TsmMap) : List WalkEntry → Except WalkErr TsmMap
  | [] => Except.ok m
  | e :: rest =>
    match walkStep cmd m e with
    | Except.error err => Except.error err
    | Except.ok m1 => walkFold cmd m1 rest

/-- `Command.walkTSMFiles`: walk the data directory and group the matching
segment files. -/
def walkTSMFiles (cmd : Cmd) (entries : List WalkEntry) : Except WalkErr TsmMap :=
  walkFold cmd [] entries

/-- Whether an entry passes the two optional filters of `walkTSMFiles`
(Go evaluation order: component equals filter, or filter empty). -/
def entryQualifies (cmd : Cmd) (e : WalkEntry) : Prop :=
  (e.rel.getD 0 "" = cmd.database ∨ cmd.database = "") ∧
  (e.rel.getD 1 "" = cmd.retentionPolicy ∨ cmd.retentionPolicy = "")

instance (cmd : Cmd) (e : WalkEntry) : Decidable (entryQualifies cmd e) := by
  unfold entryQualifies; infer_instance

/-- The deletion-unit key of an entry:
`filepath.Join(dirs[0], dirs[1])`. -/
def unitKey (e : WalkEntry) : String :=
  joinPath (e.rel.getD 0 "") (e.rel.getD 1 "")

/-- Membership in the grouping map after an append. -/
theorem mem_mapFind_mapAppend (m : TsmMap) (k' v k p : String) :
    p ∈ mapFind (mapAppend m k' v) k ↔
      p ∈ mapFind m k ∨ (k = k' ∧ p = v) := by
  induction m with
  | nil =>
    by_cases h : k' = k
    · subst h
      simp [mapAppend, mapFind]
    · simp [mapAppend, mapFind, h]
      exact fun hk => absurd hk.symm h
  | cons kv rest ih =>
    by_cases h1 : kv.1 = k'
    · by_cases h2 : kv.1 = k
      · have hkk : k = k' := h2 ▸ h1
        simp [mapAppend, mapFind, h1, h2, hkk]
      · have hkk : ¬ k = k' := fun hk => h2 (hk ▸ h1)
        have hk2 : ¬ k' = k := fun hk => hkk hk.symm
        simp [mapAppend, mapFind, h1, h2, hkk, hk2]
    · by_cases h2 : kv.1 = k
      · have hkk : ¬ k = k' := fun hk => h1 (h2.trans hk)
        simp [mapAppend, mapFind, h1, h2, hkk]
      · simp [mapAppend, mapFind, h1, h2, ih]

/-- What a successful walk callback step can do to the grouping map. -/
theorem walkStep_ok_cases (cmd : Cmd) (m : TsmMap) (e : WalkEntry) (m1 : TsmMap)
    (h : walkStep cmd m e = Except.ok m1) :
    m1 = m ∨
      (m1 = mapAppend m (unitKey e) (e.path cmd.dataDir) ∧ e.err = false ∧
        isTSMEntry cmd.dataDir e = true ∧ 2 ≤ e.rel.length ∧ entryQualifies cmd e) := by
  unfold walkStep at h
  by_cases h1 : e.err = true
  · simp [h1] at h
  by_cases h2 : isTSMEntry cmd.dataDir e = true
  · simp only [h1, h2, Bool.not_true, Bool.false_eq_true, if_false] at h
    by_cases h3 : e.rel.length < 2
    · simp [h3] at h
    · simp only [h3, if_false] at h
      by_cases h4 : (e.rel.getD 0 "" = cmd.database ∨ cmd.database = "")
      · by_cases h5 :
            (e.rel.getD 1 "" = cmd.retentionPolicy ∨ cmd.retentionPolicy = "")
        · simp only [h4, h5, if_true, Except.ok.injEq] at h
          exact Or.inr ⟨h.symm, by simpa using h1, h2, by omega, h4, h5⟩
        · simp only [h4, h5, if_true, if_false, Except.ok.injEq] at h
          exact Or.inl h.symm
      · simp only [h4, if_false, Except.ok.injEq] at h
        exact Or.inl h.symm
  · simp [h1, h2] at h
    exact Or.inl h.symm

/-- When a qualifying segment entry is stepped over, its path lands in the
map under its unit key. -/
theorem walkStep_ok_of_qualifies (cmd : Cmd) (m : TsmMap) (e : WalkEntry) (m1 : TsmMap)
    (h : walkStep cmd m e = Except.ok m1) (htsm : isTSMEntry cmd.dataDir e = true)
    (hlen : 2 ≤ e.rel.length) (hq : entryQualifies cmd e) :
    m1 = mapAppend m (unitKey e) (e.path cmd.dataDir) := by
  unfold walkStep at h
  by_cases h1 : e.err = true
  · simp [h1] at h
  · have h3 : ¬ e.rel.length < 2 := by omega
    simp only [h1, htsm, Bool.not_true, Bool.false_eq_true, if_false, h3] at h
    simp only [hq.1, hq.2, if_true, Except.ok.injEq] at h
    exact h.symm

/-- Membership in the grouping map is preserved by the rest of the walk. -/
theorem walkFold_mono (cmd : Cmd) :
    ∀ (entries : List WalkEntry) (m0 m : TsmMap),
      walkFold cmd m0 entries = Except.ok m →
      ∀ k p, p ∈ mapFind m0 k → p ∈ mapFind m k := by
  intro entries
  induction entries with
  | nil =>
    intro m0 m hok k p hp
    simp only [walkFold, Except.ok.injEq] at hok
    exact hok ▸ hp
  | cons e0 rest ih =>
    intro m0 m hok k p hp
    rw [walkFold] at hok
    cases hstep : walkStep cmd m0 e0 with
    | error err => rw [hstep] at hok; cases hok
    | ok m1 =>
      rw [hstep] at hok
      rcases walkStep_ok_cases cmd m0 e0 m1 hstep with heq | ⟨heq, -, -, -, -⟩
      · exact ih m1 m hok k p (heq ▸ hp)
      · refine ih m1 m hok k p ?_
        rw [heq, mem_mapFind_mapAppend]
        exact Or.inl hp

/-- Completeness: a qualifying segment entry of a successful walk appears in
the result under its unit key. -/
theorem walkFold_complete (cmd : Cmd) (e : WalkEntry) :
    ∀ (entries : List WalkEntry) (m0 m : TsmMap),
      walkFold cmd m0 entries = Except.ok m →
      e ∈ entries → isTSMEntry cmd.dataDir e = true → 2 ≤ e.rel.length →
      entryQualifies cmd e →
      e.path cmd.dataDir ∈ mapFind m (unitKey e) := by
  intro entries
  induction entries with
  | nil => intro m0 m _ he; cases he
  | cons e0 rest ih =>
    intro m0 m hok he htsm hlen hq
    rw [walkFold] at hok
    cases hstep : walkStep cmd m0 e0 with
    | error err => rw [hstep] at hok; cases hok
    | ok m1 =>
      rw [hstep] at hok
      rcases List.mem_cons.mp he with rfl | he'
      · have hm1 := walkStep_ok_of_qualifies cmd m0 e m1 hstep htsm hlen hq
        refine walkFold_mono cmd rest m1 m hok (unitKey e) (e.path cmd.dataDir) ?_
        rw [hm1, mem_mapFind_mapAppend]
        exact Or.inr ⟨rfl, rfl⟩
      · exact ih m1 m hok he' htsm hlen hq

/-- Soundness: every path in the result of a successful walk came from a
qualifying segment entry and is grouped under that entry's unit key. -/
theorem walkFold_sound (cmd : Cmd) :
    ∀ (entries : List WalkEntry) (m0 m : TsmMap),
      walkFold cmd m0 entries = Except.ok m →
      ∀ k p, p ∈ mapFind m k →
        p ∈ mapFind m0 k ∨
          ∃ e, e ∈ entries ∧ p = e.path cmd.dataDir ∧ k = unitKey e ∧
            isTSMEntry cmd.dataDir e = true ∧ 2 ≤ e.rel.length ∧
            entryQualifies cmd e := by
  intro entries
  induction entries with
  | nil =>
    intro m0 m hok k p hp
    simp only [walkFold, Except.ok.injEq] at hok
    exact Or.inl (hok ▸ hp)
  | cons e0 rest ih =>
    intro m0 m hok k p hp
    rw [walkFold] at hok
    cases hstep : walkStep cmd m0 e0 with
    | error err => rw [hstep] at hok; cases hok
    | ok m1 =>
      rw [hstep] at hok
      rcases ih m1 m hok k p hp with hp1 | ⟨e, he, hpe, hke, htsm, hlen, hq⟩
      · rcases walkStep_ok_cases cmd m0 e0 m1 hstep with heq | ⟨heq, -, htsm, hlen, hq⟩
        · exact Or.inl (heq ▸ hp1)
        · rw [heq, mem_mapFind_mapAppend] at hp1
          rcases hp1 with hp0 | ⟨hk0, hp0⟩
          · exact Or.inl hp0
          · exact Or.inr ⟨e0, List.mem_cons_self e0 rest, hp0, hk0, htsm, hlen, hq⟩
      · exact Or.inr ⟨e, List.mem_cons_of_mem e0 he, hpe, hke, htsm, hlen, hq⟩

/-- A segment entry whose relative path is too shallow makes the whole walk
fail. -/
theorem walkFold_shallow_fails (cmd : Cmd) (e : WalkEntry)
    (htsm : isTSMEntry cmd.dataDir e = true) (hlen : e.rel.length < 2) :
    ∀ (entries : List WalkEntry) (m0 : TsmMap), e ∈ entries →
      ∀ m, walkFold cmd m0 entries ≠ Except.ok m := by
  intro entries
  induction entries with
  | nil => intro m0 he; cases he
  | cons e0 rest ih =>
    intro m0 he m hok
    rw [walkFold] at hok
    cases hstep : walkStep cmd m0 e0 with
    | error err => rw [hstep] at hok; cases hok
    | ok m1 =>
      rw [hstep] at hok
      rcases List.mem_cons.mp he with rfl | he'
      · unfold walkStep at hstep
        by_cases h1 : e.err = true
        · simp [h1] at hstep
        · simp [h1, htsm, hlen] at hstep
      · exact ih m1 he' m hok

/-! ### Claim C5 -/

/-- **C5.** On a walk whose visited files have pairwise distinct paths:
(i) if the walk succeeds, a segment file with at least two relative
components is in the result exactly when the database filter is empty or
equals its first component and the retention filter is empty or equals its
second component, and it sits under the key joining those two components;
(ii) every path in the result comes from such a qualifying segment entry and
is grouped under its unit key; (iii) a segment file with fewer than two
components makes the locate fail. -/
theorem walkTSMFiles_locates_exactly_matching (cmd : Cmd) (entries : List WalkEntry)
    (hnd : (entries.map (WalkEntry.path cmd.dataDir)).Nodup) :
    (∀ m, walkTSMFiles cmd entries = Except.ok m →
      (∀ e ∈ entries, isTSMEntry cmd.dataDir e = true → 2 ≤ e.rel.length →
        (e.path cmd.dataDir ∈ mapFind m (unitKey e) ↔
          ((cmd.database = "" ∨ e.rel.getD 0 "" = cmd.database) ∧
           (cmd.retentionPolicy = "" ∨ e.rel.getD 1 "" = cmd.retentionPolicy)))) ∧
      (∀ k p, p ∈ mapFind m k →
        ∃ e, e ∈ entries ∧ p = e.path cmd.dataDir ∧ k = unitKey e ∧
          isTSMEntry cmd.dataDir e = true ∧ 2 ≤ e.rel.length ∧
          entryQualifies cmd e)) ∧
    (∀ e ∈ entries, isTSMEntry cmd.dataDir e = true → e.rel.length < 2 →
      ∀ m, walkTSMFiles cmd entries ≠ Except.ok m) := by
  constructor
  · intro m hok
    have hsound := walkFold_sound cmd entries [] m hok
    constructor
    · intro e he htsm hlen
      constructor
      · intro hmem
        rcases hsound (unitKey e) (e.path cmd.dataDir) hmem with h0 | ⟨e', he', hpe, -, -, -, hq⟩
        · simp [mapFind] at h0
        · have hee : e = e' :=
            List.inj_on_of_nodup_map hnd he he' hpe
          rw [hee]
          exact ⟨hq.1.symm, hq.2.symm⟩
      · intro hq
        exact walkFold_complete cmd e entries [] m hok he htsm hlen
          ⟨hq.1.symm, hq.2.symm⟩
    · intro k p hp
      rcases hsound k p hp with h0 | hex
      · simp [mapFind] at h0
      · exact hex
  · intro e he htsm hlen m
    exact walkFold_shallow_fails cmd e htsm hlen entries [] he m

/-- Sample entries for the C5 witness: two segment files in different
retention policies, one non-segment file. -/
def entriesW : List WalkEntry :=
  [⟨["db", "rp", "000001.tsm"], false⟩,
   ⟨["db", "other", "000002.tsm"], false⟩,
   ⟨["db", "rp", "notes.txt"], false⟩]

/-- A command configuration filtering on retention policy `rp`. -/
def cmdW : Cmd := ⟨"data", "", "rp", "series.txt", false, false⟩

/-- Witness for C5 at a concrete walk with distinct paths. -/
theorem walkTSMFiles_locates_exactly_matching_witness :
    ((entriesW.map (WalkEntry.path cmdW.dataDir)).Nodup) ∧
    ((∀ m, walkTSMFiles cmdW entriesW = Except.ok m →
      (∀ e ∈ entriesW, isTSMEntry cmdW.dataDir e = true → 2 ≤ e.rel.length →
        (e.path cmdW.dataDir ∈ mapFind m (unitKey e) ↔
          ((cmdW.database = "" ∨ e.rel.getD 0 "" = cmdW.database) ∧
           (cmdW.retentionPolicy = "" ∨ e.rel.getD 1 "" = cmdW.retentionPolicy)))) ∧
      (∀ k p, p ∈ mapFind m k →
        ∃ e, e ∈ entriesW ∧ p = e.path cmdW.dataDir ∧ k = unitKey e ∧
          isTSMEntry cmdW.dataDir e = true ∧ 2 ≤ e.rel.length ∧
          entryQualifies cmdW e)) ∧
    (∀ e ∈ entriesW, isTSMEntry cmdW.dataDir e = true → e.rel.length < 2 →
      ∀ m, walkTSMFiles cmdW entriesW ≠ Except.ok m)) :=
  ⟨by decide, walkTSMFiles_locates_exactly_matching cmdW entriesW (by decide)⟩

/-! ### Filter loading, the drivers, and `Run` -/

/-- Errors reported by `Run`. -/
inductive RunErr where
  | flagMissing
  | walk (e : WalkErr)
  | seriesIO
deriving DecidableEq, Repr

/-- The external world of one run: the entries the directory walk visits,
the series file content (`none` = the file cannot be opened), a scanner
read-error flag, the segment filesystem, and the failure environment. -/
structure World where
  entries : List WalkEntry
  seriesContent : Option (List String)
  seriesScanFails : Bool
  fs : FS
  env : Env

/-- `Command.parseSeriesFile`: open the series file and read it line by
line; every line becomes a member of the filter set. -/
def parseSeriesFile (w : World) : Except RunErr (List String) :=
  match w.seriesContent with
  | none => Except.error RunErr.seriesIO
  | some lines =>
    if w.seriesScanFails then Except.error RunErr.seriesIO else Except.ok lines

/-- Character-wise lexicographic ≤ on character lists (the byte comparison
behind `sort.Strings`). -/
def charLeb : List Char → List Char → Bool
  | [], _ => true
  | _ :: _, [] => false
  | a :: as, b :: bs =>
    if a < b then true
    else if b < a then false
    else charLeb as bs

/-- Lexicographic ≤ on strings, as `sort.Strings` compares. -/
def stringLeb (a b : String) : Bool :=
  charLeb a.data b.data

/-- `sort.Strings`: ascending lexicographic sort. -/
def sortStrings (files : List String) : List String :=
  List.insertionSort (fun a b => stringLeb a b = true) files

/-- `Command.deleteFromTSMFiles`: sort the unit's files, then process each
in order.  The error result of `processTSMFile` is discarded by the source
(`cmd.processTSMFile(file)` ignores the returned error), so the fold always
continues and the function always returns `nil`. -/
def deleteFromTSMFiles (series : List String) (env : Env) (fs : FS)
    (files : List String) : Option RunErr × FS :=
  (none, (sortStrings files).foldl
    (fun acc f => (processTSMFileE series env acc f).2.1) fs)

/-- `Command.deleteSeries`: process each deletion unit, propagating the
(always-`nil`) error of `deleteFromTSMFiles`. -/
def deleteSeries (series : List String) (env : Env) :
    TsmMap → FS → Option RunErr × FS
  | [], fs => (none, fs)
  | kv :: rest, fs =>
    let r := deleteFromTSMFiles series env fs kv.2
    match r.1 with
    | some err => (some err, r.2)
    | none => deleteSeries series env rest r.2

/-- `Command.Run` after flag parsing: require the series-file flag, locate
the segment files, load the filter set, then delete. -/
def Run (cmd : Cmd) (w : World) : Option RunErr × FS :=
  if cmd.seriesFile = "" then (some RunErr.flagMissing, w.fs)
  else
    match walkTSMFiles cmd w.entries with
    | Except.error e => (some (RunErr.walk e), w.fs)
    | Except.ok tsmFiles =>
      match parseSeriesFile w with
      | Except.error e => (some e, w.fs)
      | Except.ok series => deleteSeries series w.env tsmFiles w.fs

/-! ### Claim C3 -/

/-- **C3.** If locating segment files fails (walk I/O error or a too-shallow
segment path) or loading the series filter file fails, `Run` returns an
error and the filesystem is exactly as before: no segment file is created,
rewritten, or renamed. -/
theorem Run_aborts_before_touching_files (cmd : Cmd) (w : World)
    (h : (∃ e, walkTSMFiles cmd w.entries = Except.error e) ∨
         (∃ e, parseSeriesFile w = Except.error e)) :
    (Run cmd w).1.isSome ∧ (Run cmd w).2 = w.fs := by
  unfold Run
  by_cases hflag : cmd.seriesFile = ""
  · simp [hflag]
  · simp only [hflag, if_false]
    cases hw : walkTSMFiles cmd w.entries with
    | error e => simp
    | ok m =>
      cases hp : parseSeriesFile w with
      | error e => simp
      | ok series =>
        rcases h with ⟨e, he⟩ | ⟨e, he⟩
        · rw [hw] at he; cases he
        · rw [hp] at he; cases he

/-- A world whose series file cannot be opened. -/
def worldNoSeries : World := ⟨entriesW, none, false, fsW, fun _ => noFail⟩

/-- Witness for C3: the series file cannot be opened, `Run` errors and the
filesystem is untouched. -/
theorem Run_aborts_before_touching_files_witness :
    ((∃ e, walkTSMFiles cmdW worldNoSeries.entries = Except.error e) ∨
     (∃ e, parseSeriesFile worldNoSeries = Except.error e)) ∧
    ((Run cmdW worldNoSeries).1.isSome ∧ (Run cmdW worldNoSeries).2 = worldNoSeries.fs) :=
  ⟨Or.inr ⟨RunErr.seriesIO, rfl⟩,
   Run_aborts_before_touching_files cmdW worldNoSeries
     (Or.inr ⟨RunErr.seriesIO, rfl⟩)⟩

/-! ### Claim C9 -/

/-- `charLeb` agrees with the lexicographic order on character lists. -/
theorem charLeb_iff_not_lex (as : List Char) :
    ∀ bs : List Char, charLeb as bs = true ↔ ¬ List.Lex (· < ·) bs as := by
  induction as with
  | nil =>
    intro bs
    constructor
    · intro _ h; cases h
    · intro _; cases bs <;> simp [charLeb]
  | cons a as ih =>
    intro bs
    cases bs with
    | nil =>
      refine iff_of_false (by simp [charLeb]) (not_not_intro List.Lex.nil)
    | cons b bs =>
      by_cases hab : a < b
      · have h1 : ¬ b < a := asymm hab
        refine iff_of_true (by simp [charLeb, hab]) ?_
        intro h
        cases h with
        | cons h' => exact lt_irrefl _ hab
        | rel h' => exact h1 h'
      · by_cases hba : b < a
        · refine iff_of_false (by simp [charLeb, hab, hba]) ?_
          exact not_not_intro (List.Lex.rel hba)
        · have heq : a = b := le_antisymm (not_lt.mp hba) (not_lt.mp hab)
          subst heq
          have : charLeb (a :: as) (a :: bs) = charLeb as bs := by
            simp [charLeb]
          rw [this, ih bs, List.Lex.cons_iff]

/-- `stringLeb` agrees with the linear order on strings. -/
theorem stringLeb_iff (a b : String) : stringLeb a b = true ↔ a ≤ b := by
  rw [stringLeb, charLeb_iff_not_lex]
  constructor
  · intro hn hlt
    exact hn (String.lt_iff_toList_lt.mp hlt)
  · intro hle hlex
    exact hle (String.lt_iff_toList_lt.mpr hlex)

instance : IsTotal String fun a b => stringLeb a b = true :=
  ⟨fun a b => by
    rcases le_total a b with h | h
    · exact Or.inl ((stringLeb_iff a b).mpr h)
    · exact Or.inr ((stringLeb_iff b a).mpr h)⟩

instance : IsTrans String fun a b => stringLeb a b = true :=
  ⟨fun a b c hab hbc =>
    (stringLeb_iff a c).mpr
      (le_trans ((stringLeb_iff a b).mp hab) ((stringLeb_iff b c).mp hbc))⟩

/-- Strict comparison from two boolean comparisons (for witnesses). -/
theorem stringLt_of_leb (a b : String) (h1 : stringLeb a b = true)
    (h2 : stringLeb b a = false) : a < b := by
  rw [lt_iff_le_not_le]
  refine ⟨(stringLeb_iff a b).mp h1, fun hba => ?_⟩
  have h3 := (stringLeb_iff b a).mpr hba
  rw [h2] at h3
  cases h3

/-- In a sorted list, a smaller member's first occurrence precedes a larger
member's. -/
theorem indexOf_lt_of_sorted_of_lt {l : List String}
    (hs : l.Sorted (· ≤ ·)) {a b : String} (ha : a ∈ l) (hb : b ∈ l)
    (hab : a < b) : l.indexOf a < l.indexOf b := by
  induction l with
  | nil => cases ha
  | cons x t ih =>
    by_cases hax : a = x
    · subst hax
      rw [List.indexOf_cons_self]
      rw [List.indexOf_cons_ne t (ne_of_lt hab)]
      exact Nat.succ_pos _
    · have hat : a ∈ t := by
        rcases List.mem_cons.mp ha with h | h
        · exact absurd h hax
        · exact h
      by_cases hbx : b = x
      · subst hbx
        have hba : b ≤ a := List.rel_of_sorted_cons hs a hat
        exact absurd hab (not_lt.mpr hba)
      · have hbt : b ∈ t := by
          rcases List.mem_cons.mp hb with h | h
          · exact absurd h hbx
          · exact h
        rw [List.indexOf_cons_ne t fun h => hax h.symm]
        rw [List.indexOf_cons_ne t fun h => hbx h.symm]
        exact Nat.succ_lt_succ (ih hs.of_cons hat hbt)

/-- **C9.** `deleteFromTSMFiles` processes the files of a unit in ascending
lexicographic path order: whatever order the locator discovered them in, a
path that compares smaller is processed at an earlier position of the fold,
and the fold runs exactly over the sorted file list. -/
theorem deleteFromTSMFiles_sorted_order (series : List String) (env : Env)
    (fs : FS) (files : List String) (a b : String)
    (ha : a ∈ files) (hb : b ∈ files) (hab : a < b) :
    (sortStrings files).indexOf a < (sortStrings files).indexOf b ∧
    deleteFromTSMFiles series env fs files =
      (none, (sortStrings files).foldl
        (fun acc f => (processTSMFileE series env acc f).2.1) fs) := by
  refine ⟨?_, rfl⟩
  have hperm := List.perm_insertionSort (fun a b => stringLeb a b = true) files
  have hsorted : (sortStrings files).Sorted (· ≤ ·) :=
    List.Pairwise.imp (fun h => (stringLeb_iff _ _).mp h)
      (List.sorted_insertionSort (fun a b => stringLeb a b = true) files)
  exact indexOf_lt_of_sorted_of_lt hsorted
    (hperm.mem_iff.mpr ha) (hperm.mem_iff.mpr hb) hab

/-- Witness for C9: two files discovered in reverse order. -/
theorem deleteFromTSMFiles_sorted_order_witness :
    ("db/rp/a.tsm" ∈ ["db/rp/b.tsm", "db/rp/a.tsm"] ∧
     "db/rp/b.tsm" ∈ ["db/rp/b.tsm", "db/rp/a.tsm"] ∧
     "db/rp/a.tsm" < "db/rp/b.tsm") ∧
    ((sortStrings ["db/rp/b.tsm", "db/rp/a.tsm"]).indexOf "db/rp/a.tsm" <
       (sortStrings ["db/rp/b.tsm", "db/rp/a.tsm"]).indexOf "db/rp/b.tsm" ∧
     deleteFromTSMFiles seriesW (fun _ => noFail) fsW
         ["db/rp/b.tsm", "db/rp/a.tsm"] =
       (none, (sortStrings ["db/rp/b.tsm", "db/rp/a.tsm"]).foldl
         (fun acc f => (processTSMFileE seriesW (fun _ => noFail) acc f).2.1) fsW)) :=
  ⟨⟨by decide, by decide, stringLt_of_leb _ _ (by decide) (by decide)⟩,
   deleteFromTSMFiles_sorted_order seriesW (fun _ => noFail) fsW
     ["db/rp/b.tsm", "db/rp/a.tsm"] "db/rp/a.tsm" "db/rp/b.tsm"
     (by decide) (by decide) (stringLt_of_leb _ _ (by decide) (by decide))⟩

/-! ### Claim C6 -/

/-- First file of the two-file unit (sorts first). -/
def pathA : String := "db/rp/a.tsm"

/-- Second file of the two-file unit. -/
def pathB : String := "db/rp/b.tsm"

/-- A filesystem with two identical segment files in one unit. -/
def fsTwo : FS :=
  fun p => if p = pathA then some fileW else if p = pathB then some fileW else none

/-- An environment in which index finalization fails for `pathA` only. -/
def envFailA : Env :=
  fun p =>
    if p = pathA then
      ⟨false, false, false, false, false, false, none, none, true, false, false⟩
    else noFail

/-- **C6 evaluation at the failing input.** Processing `pathA` fails with a
write-index error, yet `deleteFromTSMFiles` reports no error and the later
file `pathB` of the same unit is still rewritten (its matching block is
dropped), while `pathA` keeps its original content: the source discards the
error of `processTSMFile`, so the error is neither propagated nor does it
stop the unit. -/
theorem deleteFromTSMFiles_swallows_error :
    (processTSMFileE seriesW envFailA fsTwo pathA).1 =
      some ProcErr.writeIndexFailed ∧
    (deleteFromTSMFiles seriesW envFailA fsTwo [pathA, pathB]).1 = none ∧
    (deleteFromTSMFiles seriesW envFailA fsTwo [pathA, pathB]).2 pathB =
      some ⟨fileW.blocks.filter fun b => !matchesFilter seriesW b⟩ ∧
    (deleteFromTSMFiles seriesW envFailA fsTwo [pathA, pathB]).2 pathA =
      some fileW := by
  refine ⟨by decide, rfl, by decide, by decide⟩

/-! ### Claim C8 -/

/-- Replace the sanitize flag of a configuration. -/
def setSanitize (c : Cmd) (b : Bool) : Cmd :=
  ⟨c.dataDir, c.database, c.retentionPolicy, c.seriesFile, b, c.verbose⟩

/-- The walk never reads the sanitize flag. -/
theorem walkFold_sanitize (c : Cmd) (b : Bool) :
    ∀ (entries : List WalkEntry) (m : TsmMap),
      walkFold (setSanitize c b) m entries = walkFold c m entries := by
  intro entries
  induction entries with
  | nil => intro m; rfl
  | cons e rest ih =>
    intro m
    rw [walkFold, walkFold]
    have hstep : walkStep (setSanitize c b) m e = walkStep c m e := rfl
    rw [hstep]
    cases walkStep c m e with
    | error err => rfl
    | ok m1 => exact ih m1

/-- **C8 amended.** The sanitize flag is parsed but never read: a run with
sanitize on behaves identically to the same run with sanitize off, on every
input. -/
theorem Run_ignores_sanitize (c : Cmd) (w : World) :
    Run (setSanitize c true) w = Run (setSanitize c false) w := by
  unfold Run
  have hw : walkTSMFiles (setSanitize c true) w.entries =
      walkTSMFiles (setSanitize c false) w.entries := by
    unfold walkTSMFiles
    rw [walkFold_sanitize, walkFold_sanitize]
  have hs : (setSanitize c true).seriesFile = (setSanitize c false).seriesFile := rfl
  rw [hs, hw]

/-- A block whose series key starts with the non-printable character
`U+0001`. -/
def bCtl : Block := ⟨⟨"\x01cpu", "value"⟩, 0, 0, [3]⟩

/-- The path of the segment holding that block, as the walk derives it. -/
def pathC : String := "data/db/rp/f.tsm"

/-- A configuration with sanitize enabled and no database/retention filter. -/
def cmdSan : Cmd := ⟨"data", "", "", "s.txt", true, false⟩

/-- A world whose filter file lists the non-printable series key and whose
only segment holds the block with that key. -/
def worldSan : World :=
  ⟨[⟨["db", "rp", "f.tsm"], false⟩],
   some ["\x01cpu,"], false,
   (fun p => if p = pathC then some ⟨[bCtl]⟩ else none),
   fun _ => noFail⟩

/-- **C8 counterexample.** With sanitize enabled, a block whose series key
contains non-printable Unicode is still dropped when the filter set lists
that key: after the run the segment is empty, contradicting the claim that
such a block is never dropped by a sanitize-on run. -/
theorem sanitize_on_still_drops_nonprintable :
    cmdSan.sanitize = true ∧
    (Run cmdSan worldSan).2 pathC = some ⟨[]⟩ := by
  refine ⟨rfl, by decide⟩

end DeleteTSM
